import Mathlib

/-!
Verification of the `observer` endpoint-mirroring controllers.

Go strings are embedded as `List Char` so that the character-level string
operations of the source (`strings.Split`, `strings.TrimSpace`,
`strings.SplitN`, `strings.Join`, `strings.ReplaceAll`) become structurally
recursive Lean functions.  Go `map[string]string` label maps are embedded as
association lists, with the Go zero-value lookup convention (a missing key
reads as the empty string).  The relational table is a list of rows, and a
SQL transaction is a snapshot that replaces the table only on commit.
-/

set_option maxRecDepth 4096

/-- A Go string, embedded character by character. -/
abbrev GoStr := List Char

namespace Observer

/-! ## Character-level string primitives (Go `strings` package) -/

/-- `strings.Split(s, sep)` for a one-character separator: splits around every
occurrence of `c`; the empty string yields `[[]]`, mirroring Go, where
`strings.Split("", ",") = [""]`. -/
def splitCh (c : Char) : GoStr → List GoStr
  | [] => [[]]
  | a :: rest =>
    if a = c then [] :: splitCh c rest
    else
      match splitCh c rest with
      | [] => [[a]]
      | h :: t => (a :: h) :: t

/-- Whitespace as recognized by Go `unicode.IsSpace` on the code points that can
appear here: space, `\t`, `\n`, vertical tab, form feed, `\r`, NEL, NBSP. -/
def goIsSpace (c : Char) : Bool :=
  c.toNat = 32 || c.toNat = 9 || c.toNat = 10 || c.toNat = 11 ||
  c.toNat = 12 || c.toNat = 13 || c.toNat = 133 || c.toNat = 160

/-- `strings.TrimSpace`: drop leading and trailing whitespace. -/
def trimSpace (s : GoStr) : GoStr :=
  ((s.dropWhile goIsSpace).reverse.dropWhile goIsSpace).reverse

/-- `strings.SplitN(p, "=", 2)`: `none` when `p` has no `'='` (Go returns a
one-element slice), otherwise the part before the first `'='` and everything
after it. -/
def splitFirstEq : GoStr → Option (GoStr × GoStr)
  | [] => none
  | c :: rest =>
    if c = '=' then some ([], rest)
    else
      match splitFirstEq rest with
      | none => none
      | some (k, v) => some (c :: k, v)

/-- `strings.Join(parts, sep)` for a one-character separator. -/
def joinCh (c : Char) : List GoStr → GoStr
  | [] => []
  | [s] => s
  | s :: rest => s ++ c :: joinCh c rest

/-! ## Label maps -/

/-- Go map read `lbls[k]`: the zero value (empty string) when the key is
absent.  Label maps are association lists with distinct keys in the intended
use; lookup takes the first binding. -/
def lookupGo (lbls : List (GoStr × GoStr)) (k : GoStr) : GoStr :=
  match lbls.find? (fun kv => decide (kv.1 = k)) with
  | some kv => kv.2
  | none => []

/-! ## Selector matcher (`matchKV`, endpointslice_controller.go) -/

/-- The body of `matchKV`'s loop for one comma-separated part: trim it, skip it
when empty, reject when it has no `'='`, otherwise compare the label value at
the key with everything after the first `'='`. -/
def evalClause (lbls : List (GoStr × GoStr)) (p : GoStr) : Bool :=
  if trimSpace p = [] then true
  else
    match splitFirstEq (trimSpace p) with
    | none => false
    | some (k, v) => decide (lookupGo lbls k = v)

/-- `matchKV(lbls, sel)`: every comma-separated clause must pass. -/
def matchKV (lbls : List (GoStr × GoStr)) (sel : GoStr) : Bool :=
  (splitCh ',' sel).all (evalClause lbls)

/-! ## Table identifier sanitizer (`sanitizeTableIdent`) -/

/-- One part of pgx's `Identifier.Sanitize`: drop NUL bytes, double every
embedded `'"'`, and wrap the result in double quotes. -/
def quoteSegment (s : GoStr) : GoStr :=
  let cleaned := s.filter (fun c => decide (c ≠ Char.ofNat 0))
  '"' :: (cleaned.flatMap (fun c => if c = '"' then ['"', '"'] else [c])) ++ ['"']

/-- `sanitizeTableIdent(name)`: empty input defaults to `public.server`; the
input is split on `'.'` and every segment is independently quoted, then the
segments are rejoined with `'.'`. -/
def sanitizeTableIdent (name : GoStr) : GoStr :=
  joinCh '.'
    ((splitCh '.' (if name = [] then "public.server".toList else name)).map quoteSegment)

/-! ## Kubernetes objects consumed by the reconcilers -/

/-- `corev1.ObjectReference` (the fields the controller reads). -/
structure ObjectReference where
  kind : GoStr
  uid : GoStr
  name : GoStr
deriving DecidableEq, Repr

/-- `discoveryv1.EndpointConditions` (the field the controller reads);
`ready == nil` is `none`. -/
structure EndpointConditions where
  ready : Option Bool
deriving DecidableEq, Repr

/-- `discoveryv1.Endpoint` (the fields the controller reads). -/
structure Endpoint where
  addresses : List GoStr
  conditions : EndpointConditions
  targetRef : Option ObjectReference
deriving DecidableEq, Repr

/-- `discoveryv1.EndpointSlice` (the fields the controller reads).  The
metadata namespace is called `ns` because `namespace` is reserved in Lean. -/
structure EndpointSlice where
  ns : GoStr
  labels : List (GoStr × GoStr)
  endpoints : List Endpoint
deriving DecidableEq, Repr

/-- `discoveryv1.LabelServiceName = "kubernetes.io/service-name"`. -/
def serviceNameLabel : GoStr := "kubernetes.io/service-name".toList

/-! ## Desired rows (`endpointRow`, `endpointToRow`, `buildDesiredRows`) -/

/-- The in-memory `endpointRow` struct. -/
structure endpointRow where
  UID : GoStr
  Name : GoStr
  IP : GoStr
deriving DecidableEq, Repr

instance : Inhabited endpointRow := ⟨⟨[], [], []⟩⟩

/-- `endpointToRow(ep, namespace, service)`: `none` when the endpoint is
explicitly not ready or has no address; otherwise the first address, the pod
UID and name when the target reference is a `Pod`, and a
`namespace/service/ip` composite identity when the UID came out empty. -/
def endpointToRow (ep : Endpoint) (ns service : GoStr) : Option endpointRow :=
  if ep.conditions.ready = some false then none
  else
    match ep.addresses with
    | [] => none
    | ip :: _ =>
      let pr : GoStr × GoStr :=
        match ep.targetRef with
        | some tr => if tr.kind = "Pod".toList then (tr.uid, tr.name) else ([], [])
        | none => ([], [])
      let uid := if pr.1 = [] then ns ++ '/' :: service ++ '/' :: ip else pr.1
      some ⟨uid, pr.2, ip⟩

/-- Go map write `desired[k] = v`: the association list with any old binding of
`k` removed and the new binding appended (last write wins). -/
def mapInsert (m : List (GoStr × endpointRow)) (k : GoStr) (v : endpointRow) :
    List (GoStr × endpointRow) :=
  m.filter (fun kv => decide (kv.1 ≠ k)) ++ [(k, v)]

/-- Body of `buildDesiredRows`'s inner loop: `desired[row.UID] = *row` when
the endpoint is admitted, no change otherwise. -/
def insertEndpoint (ns service : GoStr) (d : List (GoStr × endpointRow))
    (ep : Endpoint) : List (GoStr × endpointRow) :=
  match endpointToRow ep ns service with
  | none => d
  | some row => mapInsert d row.UID row

/-- Body of `buildDesiredRows`'s outer loop: skip slices failing the optional
label selector, otherwise fold the slice's endpoints into the map. -/
def insertSlice (labelSelector service : GoStr)
    (desired : List (GoStr × endpointRow)) (sl : EndpointSlice) :
    List (GoStr × endpointRow) :=
  if labelSelector ≠ [] ∧ matchKV sl.labels labelSelector = false then desired
  else sl.endpoints.foldl (insertEndpoint sl.ns service) desired

/-- `buildDesiredRows(list, service)`: union the admitted endpoints of every
slice that passes the optional label selector, keyed by identity. -/
def buildDesiredRows (labelSelector : GoStr) (items : List EndpointSlice)
    (service : GoStr) : List (GoStr × endpointRow) :=
  items.foldl (insertSlice labelSelector service) []

/-! ## The relational table and the statements issued against it -/

/-- A persisted endpoint row (one row of the destination table). -/
structure Row where
  cluster : GoStr
  ns : GoStr
  service : GoStr
  pod_uid : GoStr
  pod_name : GoStr
  pod_ip : GoStr
  ready : Bool
  first_seen : Nat
  last_seen : Nat
deriving DecidableEq, Repr

instance : Inhabited Row := ⟨⟨[], [], [], [], [], [], true, 0, 0⟩⟩

/-- The three parameterized SQL statements the controllers issue. -/
inductive Stmt where
  /-- `INSERT ... ON CONFLICT (cluster, namespace, service, pod_uid) DO UPDATE
  SET pod_ip, ready = true, last_seen = now()`. -/
  | upsert (tbl cluster ns service uid name ip : GoStr)
  /-- `DELETE ... WHERE cluster=$1 AND namespace=$2 AND service=$3 AND
  pod_uid <> ALL($4)`. -/
  | prune (tbl cluster ns service : GoStr) (uids : List GoStr)
  /-- `DELETE ... WHERE cluster=$1 AND namespace=$2 AND service=$3`. -/
  | wipe (tbl cluster ns service : GoStr)
deriving DecidableEq, Repr

/-- The primary-key match used by the upsert's conflict target. -/
def rowKeyIs (r : Row) (c n s u : GoStr) : Bool :=
  decide (r.cluster = c ∧ r.ns = n ∧ r.service = s ∧ r.pod_uid = u)

/-- The partition match used by both delete statements. -/
def inPartition (r : Row) (c n s : GoStr) : Bool :=
  decide (r.cluster = c ∧ r.ns = n ∧ r.service = s)

/-- Effect of one upsert statement: update `pod_ip`, `ready`, `last_seen` of
the conflicting row when the key exists, otherwise insert a fresh row with
`first_seen` and `last_seen` defaulted to now. -/
def upsertRow (now : Nat) (db : List Row) (c n s u nm ip : GoStr) : List Row :=
  if db.any (fun r => rowKeyIs r c n s u) then
    db.map (fun r =>
      if rowKeyIs r c n s u then
        { r with pod_ip := ip, ready := true, last_seen := now }
      else r)
  else
    db ++ [{ cluster := c, ns := n, service := s, pod_uid := u, pod_name := nm,
             pod_ip := ip, ready := true, first_seen := now, last_seen := now }]

/-- `upsertRows`: the loop issuing one upsert per desired row, as its pure
effect on the table. -/
def upsertRows (now : Nat) (c n s : GoStr) (entries : List (GoStr × endpointRow))
    (db : List Row) : List Row :=
  entries.foldl (fun acc ke => upsertRow now acc c n s ke.2.UID ke.2.Name ke.2.IP) db

/-- Effect of the prune statement: delete every row of the partition whose
`pod_uid` differs from all listed identities (`<> ALL` of an empty list is
vacuously true, deleting the whole partition). -/
def pruneDb (db : List Row) (c n s : GoStr) (uids : List GoStr) : List Row :=
  db.filter (fun r => !(inPartition r c n s && decide (r.pod_uid ∉ uids)))

/-- Effect of the service-deletion statement: delete the whole partition. -/
def wipeDb (db : List Row) (c n s : GoStr) : List Row :=
  db.filter (fun r => !inPartition r c n s)

/-- Interpret one statement against a table state. -/
def applyStmt (now : Nat) (db : List Row) : Stmt → List Row
  | .upsert _ c n s u nm ip => upsertRow now db c n s u nm ip
  | .prune _ c n s uids => pruneDb db c n s uids
  | .wipe _ c n s => wipeDb db c n s

/-- Run the statements of one transaction against a snapshot.  `okFlags`
schedules failures: the `idx`-th `Exec` succeeds iff `okFlags.getD idx true`.
Returns the final snapshot (`none` when some statement failed) together with
the statements that were attempted. -/
def execTx (now : Nat) (okFlags : List Bool) : Nat → List Row → List Stmt →
    List Stmt → Option (List Row) × List Stmt
  | _, snap, done, [] => (some snap, done)
  | idx, snap, done, st :: rest =>
    if okFlags.getD idx true then
      execTx now okFlags (idx + 1) (applyStmt now snap st) (done ++ [st]) rest
    else (none, done ++ [st])

/-! ## The Membership Reconciler (`EndpointSliceReconciler.Reconcile`) -/

/-- Outcome of the client `Get` call: the object, not-found, or another
transport error. -/
inductive FetchResult (α : Type) where
  | found (a : α)
  | notFound
  | fetchErr
deriving DecidableEq, Repr

/-- The reconciler configuration fields that the reconcile path reads. -/
structure EsConfig where
  labelSelector : GoStr
  tableName : GoStr
  clusterName : GoStr
deriving DecidableEq, Repr

/-- One invocation's view of the external collaborators: the `Get` result, the
`List` result (`none` is a list error), and the success/failure schedule of
`Begin`, each `Exec`, and `Commit`. -/
structure EsEnv where
  fetch : FetchResult EndpointSlice
  listed : Option (List EndpointSlice)
  beginOk : Bool
  execOk : List Bool
  commitOk : Bool
  now : Nat
deriving DecidableEq, Repr

/-- Observable outcome of a reconcile invocation: the table afterwards, the
statements handed to the store, and whether an error was returned. -/
structure RecOut where
  db : List Row
  stmts : List Stmt
  isErr : Bool
deriving DecidableEq, Repr

/-- The statements `syncToDatabase` hands to the transaction: one upsert per
desired row (on the sanitized table, in map order) followed by the single
prune of the partition against the desired identity list. -/
def syncStmts (cfg : EsConfig) (desired : List (GoStr × endpointRow))
    (ns service : GoStr) : List Stmt :=
  (desired.map fun ke => Stmt.upsert (sanitizeTableIdent cfg.tableName)
    cfg.clusterName ns service ke.2.UID ke.2.Name ke.2.IP) ++
  [Stmt.prune (sanitizeTableIdent cfg.tableName) cfg.clusterName ns service
    (desired.map fun ke => ke.1)]

/-- The tail of `syncToDatabase`: if some statement failed, the deferred
rollback leaves the table untouched; otherwise `tx.Commit` either publishes
the snapshot or (on commit failure) also rolls back. -/
def commitResult (db : List Row) (commitOk : Bool) :
    Option (List Row) × List Stmt → RecOut
  | (none, done) => ⟨db, done, true⟩
  | (some snap, done) =>
    if commitOk then ⟨snap, done, false⟩ else ⟨db, done, true⟩

/-- `syncToDatabase`: open a transaction, upsert every desired row, prune the
stale remainder of the partition, commit.  The snapshot becomes the table only
on a successful commit; every failure path rolls back to the original table. -/
def syncToDatabase (cfg : EsConfig) (env : EsEnv)
    (desired : List (GoStr × endpointRow)) (ns service : GoStr)
    (db : List Row) : RecOut :=
  if env.beginOk = false then ⟨db, [], true⟩
  else
    commitResult db env.commitOk
      (execTx env.now env.execOk 0 db [] (syncStmts cfg desired ns service))

/-- `EndpointSliceReconciler.Reconcile`: fetch the triggering slice, apply the
optional selector, read the owning service from the well-known label, list the
service's slices, build the desired map, and converge the table. -/
def esReconcile (cfg : EsConfig) (env : EsEnv) (db : List Row) : RecOut :=
  match env.fetch with
  | .fetchErr => ⟨db, [], true⟩
  | .notFound => ⟨db, [], false⟩
  | .found es =>
    if cfg.labelSelector ≠ [] ∧ matchKV es.labels cfg.labelSelector = false then
      ⟨db, [], false⟩
    else
      if lookupGo es.labels serviceNameLabel = [] then ⟨db, [], false⟩
      else
        match env.listed with
        | none => ⟨db, [], true⟩
        | some items =>
          syncToDatabase cfg env
            (buildDesiredRows cfg.labelSelector items
              (lookupGo es.labels serviceNameLabel))
            es.ns (lookupGo es.labels serviceNameLabel) db

/-! ## The Service Lifecycle Reconciler (`ServiceReconciler.Reconcile`) -/

/-- The service reconciler configuration fields its reconcile path reads. -/
structure SvcConfig where
  tableName : GoStr
  clusterName : GoStr
deriving DecidableEq, Repr

/-- One invocation's view of the externals: the `Get` result for the service
object and whether the single delete statement succeeds. -/
structure SvcEnv where
  fetch : FetchResult Unit
  execOk : Bool
deriving DecidableEq, Repr

/-- `ServiceReconciler.Reconcile`: if the service still exists do nothing; on
not-found issue one non-transactional delete of the whole partition derived
from the request key; surface every other error. -/
def svcReconcile (cfg : SvcConfig) (env : SvcEnv) (reqNs reqName : GoStr)
    (db : List Row) : RecOut :=
  match env.fetch with
  | .fetchErr => ⟨db, [], true⟩
  | .found _ => ⟨db, [], false⟩
  | .notFound =>
    if env.execOk then
      ⟨applyStmt 0 db
        (Stmt.wipe (sanitizeTableIdent cfg.tableName) cfg.clusterName reqNs reqName),
       [Stmt.wipe (sanitizeTableIdent cfg.tableName) cfg.clusterName reqNs reqName],
       false⟩
    else
      ⟨db,
       [Stmt.wipe (sanitizeTableIdent cfg.tableName) cfg.clusterName reqNs reqName],
       true⟩

/-! ## Predicates used by the specification theorems -/

/-- "Some row of the partition carries this identity." -/
def hasPartRow (db : List Row) (c n s u : GoStr) : Prop :=
  ∃ r ∈ db, rowKeyIs r c n s u = true

/-- "The rows carrying this key are exactly as the upsert left them": at least
one row with the key exists, and every row with the key has the given address
and is marked ready. -/
def goodRow (db : List Row) (c n s u ip : GoStr) : Prop :=
  (∃ r ∈ db, rowKeyIs r c n s u = true) ∧
  (∀ r ∈ db, rowKeyIs r c n s u = true → r.pod_ip = ip ∧ r.ready = true)

/-- Two rows agree on every column except `last_seen`. -/
def rowEqButLastSeen (a b : Row) : Prop :=
  a.cluster = b.cluster ∧ a.ns = b.ns ∧ a.service = b.service ∧
  a.pod_uid = b.pod_uid ∧ a.pod_name = b.pod_name ∧ a.pod_ip = b.pod_ip ∧
  a.ready = b.ready ∧ a.first_seen = b.first_seen

/-! ## Concrete fixtures (from the repo's unit tests) used by witnesses -/

/-- The repo test's endpoint whose `Pod` target reference carries an empty
UID but a non-empty name. -/
def epEmptyUid : Endpoint :=
  ⟨["10.0.0.8".toList], ⟨some true⟩,
    some ⟨"Pod".toList, [], "pod-name-empty-uid".toList⟩⟩

/-- The repo test's endpoint whose target reference is a `Node`, not a
`Pod`. -/
def epNode : Endpoint :=
  ⟨["10.0.0.3".toList], ⟨some true⟩,
    some ⟨"Node".toList, "node-uid-123".toList, "node-name-123".toList⟩⟩

/-- A ready endpoint backed by pod `u1`. -/
def epW : Endpoint :=
  ⟨["10.0.0.9".toList], ⟨none⟩, some ⟨"Pod".toList, "u1".toList, "p1".toList⟩⟩

/-- A slice for service `svc1` in namespace `ns1` holding `epW`. -/
def esW : EndpointSlice :=
  ⟨"ns1".toList, [(serviceNameLabel, "svc1".toList)], [epW]⟩

/-- A reconciler configuration with no selector and default table name. -/
def cfgW : EsConfig := ⟨[], [], "c1".toList⟩

/-- An all-successful environment observing `esW`. -/
def envW : EsEnv := ⟨.found esW, some [esW], true, [], true, 5⟩

/-- The same observation on a later invocation (only `now` differs). -/
def envW2 : EsEnv := ⟨.found esW, some [esW], true, [], true, 7⟩

/-- An environment whose fetch reports not-found. -/
def envNF : EsEnv := ⟨.notFound, some [esW], true, [], true, 5⟩

/-- A service reconciler configuration. -/
def svcCfgW : SvcConfig := ⟨[], "c1".toList⟩

/-- A service environment reporting not-found with a succeeding delete. -/
def svcEnvW : SvcEnv := ⟨.notFound, true⟩

/-! ## Lemmas about the string primitives -/

theorem splitCh_ne_nil (c : Char) (s : GoStr) : splitCh c s ≠ [] := by
  induction s with
  | nil => simp [splitCh]
  | cons a rest ih =>
    simp only [splitCh]
    split
    · simp
    · rcases h : splitCh c rest with _ | ⟨h0, t0⟩ <;> simp

theorem splitCh_append (c : Char) (s₁ s₂ : GoStr) :
    splitCh c (s₁ ++ c :: s₂) = splitCh c s₁ ++ splitCh c s₂ := by
  induction s₁ with
  | nil => simp [splitCh]
  | cons a rest ih =>
    show splitCh c (a :: (rest ++ c :: s₂)) = splitCh c (a :: rest) ++ splitCh c s₂
    by_cases hac : a = c
    · subst hac
      simp [splitCh, ih]
    · rcases h : splitCh c rest with _ | ⟨h0, t0⟩
      · exact absurd h (splitCh_ne_nil c rest)
      · simp only [splitCh, if_neg hac, ih, h, List.cons_append]

theorem splitCh_no_sep (c : Char) (s : GoStr) (h : c ∉ s) : splitCh c s = [s] := by
  induction s with
  | nil => simp [splitCh]
  | cons a rest ih =>
    have hac : a ≠ c := fun hc => h (hc ▸ List.mem_cons_self a rest)
    have hr : c ∉ rest := fun hc => h (List.mem_cons_of_mem a hc)
    simp only [splitCh, if_neg hac, ih hr]

theorem splitFirstEq_eq_none (q : GoStr) : splitFirstEq q = none ↔ '=' ∉ q := by
  induction q with
  | nil => simp [splitFirstEq]
  | cons a rest ih =>
    by_cases ha : a = '='
    · subst ha; simp [splitFirstEq]
    · rcases h : splitFirstEq rest with _ | ⟨k, v⟩
      · have hrest : '=' ∉ rest := by rw [← ih, h]
        have hl : splitFirstEq (a :: rest) = none := by
          simp [splitFirstEq, ha, h]
        have hr2 : '=' ∉ a :: rest := by
          simp only [List.mem_cons]
          rintro (hc | hc)
          · exact ha hc.symm
          · exact hrest hc
        simp [hl, hr2]
      · have hrest : '=' ∈ rest := by
          by_contra hc
          have hnone : splitFirstEq rest = none := ih.mpr hc
          rw [h] at hnone
          exact absurd hnone (by simp)
        have hl : splitFirstEq (a :: rest) = some (a :: k, v) := by
          simp [splitFirstEq, ha, h]
        constructor
        · intro hc
          rw [hl] at hc
          exact absurd hc (by simp)
        · intro hc
          exact absurd (List.mem_cons_of_mem a hrest) hc

theorem splitFirstEq_append (k v : GoStr) (hk : '=' ∉ k) :
    splitFirstEq (k ++ '=' :: v) = some (k, v) := by
  induction k with
  | nil => simp [splitFirstEq]
  | cons a rest ih =>
    have ha : a ≠ '=' := fun hc => hk (hc ▸ List.mem_cons_self a rest)
    have hr : '=' ∉ rest := fun hc => hk (List.mem_cons_of_mem a hc)
    show splitFirstEq (a :: (rest ++ '=' :: v)) = some (a :: rest, v)
    simp only [splitFirstEq, if_neg ha, ih hr]

theorem splitFirstEq_some_imp (q : GoStr) :
    ∀ k v, splitFirstEq q = some (k, v) → q = k ++ '=' :: v ∧ '=' ∉ k := by
  induction q with
  | nil => intro k v h; simp [splitFirstEq] at h
  | cons a rest ih =>
    intro k v h
    by_cases ha : a = '='
    · subst ha
      simp only [splitFirstEq, if_pos rfl, Option.some.injEq, Prod.mk.injEq] at h
      obtain ⟨rfl, rfl⟩ := h
      simp
    · simp only [splitFirstEq, if_neg ha] at h
      rcases hr : splitFirstEq rest with _ | ⟨k0, v0⟩
      · rw [hr] at h; simp at h
      · rw [hr] at h
        simp only [Option.some.injEq, Prod.mk.injEq] at h
        obtain ⟨hk0, hv0⟩ := h
        subst hk0
        subst hv0
        obtain ⟨hq, hmem⟩ := ih k0 v0 hr
        constructor
        · simp [hq]
        · simp only [List.mem_cons]
          rintro (hc | hc)
          · exact ha hc.symm
          · exact hmem hc

theorem splitFirstEq_eq_some (q k v : GoStr) :
    splitFirstEq q = some (k, v) ↔ q = k ++ '=' :: v ∧ '=' ∉ k := by
  constructor
  · exact splitFirstEq_some_imp q k v
  · rintro ⟨rfl, hk⟩
    exact splitFirstEq_append k v hk

theorem dropWhile_append_spacey {w l : GoStr} (h : ∀ ch ∈ w, goIsSpace ch = true) :
    (w ++ l).dropWhile goIsSpace = l.dropWhile goIsSpace := by
  induction w with
  | nil => simp
  | cons a rest ih =>
    have ha : goIsSpace a = true := h a (List.mem_cons_self a rest)
    simp only [List.cons_append, List.dropWhile_cons, ha, if_pos]
    exact ih (fun ch hch => h ch (List.mem_cons_of_mem a hch))

theorem dropWhile_spacey_eq_nil {w : GoStr} (h : ∀ ch ∈ w, goIsSpace ch = true) :
    w.dropWhile goIsSpace = [] := by
  have := dropWhile_append_spacey (l := []) h
  simpa using this

theorem trimSpace_spacey_left {w p : GoStr} (h : ∀ ch ∈ w, goIsSpace ch = true) :
    trimSpace (w ++ p) = trimSpace p := by
  unfold trimSpace
  rw [dropWhile_append_spacey h]

theorem trimSpace_spacey_right {w p : GoStr} (h : ∀ ch ∈ w, goIsSpace ch = true) :
    trimSpace (p ++ w) = trimSpace p := by
  unfold trimSpace
  rw [List.dropWhile_append]
  split
  · next hemp =>
    rw [List.isEmpty_iff] at hemp
    rw [hemp, dropWhile_spacey_eq_nil h]
  · rw [List.reverse_append]
    rw [dropWhile_append_spacey (by intro ch hch; exact h ch (List.mem_reverse.mp hch))]

theorem trimSpace_spacey {w₁ w₂ p : GoStr}
    (h₁ : ∀ ch ∈ w₁, goIsSpace ch = true) (h₂ : ∀ ch ∈ w₂, goIsSpace ch = true) :
    trimSpace (w₁ ++ p ++ w₂) = trimSpace p := by
  rw [List.append_assoc, trimSpace_spacey_left h₁, trimSpace_spacey_right h₂]

/-! ## Selector matcher claims -/

theorem evalClause_eq_true (lbls : List (GoStr × GoStr)) (p : GoStr) :
    evalClause lbls p = true ↔
      (trimSpace p ≠ [] →
        ∃ k v, trimSpace p = k ++ '=' :: v ∧ '=' ∉ k ∧ lookupGo lbls k = v) := by
  unfold evalClause
  by_cases hq : trimSpace p = []
  · simp [hq]
  · rw [if_neg hq]
    simp only [ne_eq, hq, not_false_iff, true_implies]
    rcases hsp : splitFirstEq (trimSpace p) with _ | ⟨k, v⟩
    · simp only [Bool.false_eq_true, false_iff]
      rintro ⟨k, v, hdec, hk, _⟩
      have hx : splitFirstEq (trimSpace p) = some (k, v) := by
        rw [hdec]; exact splitFirstEq_append k v hk
      rw [hsp] at hx
      exact absurd hx (by simp)
    · obtain ⟨hdec, hmem⟩ := splitFirstEq_some_imp _ _ _ hsp
      simp only [decide_eq_true_eq]
      constructor
      · intro hlook
        exact ⟨k, v, hdec, hmem, hlook⟩
      · rintro ⟨k', v', hdec', hk', hlook'⟩
        have hx : splitFirstEq (trimSpace p) = some (k', v') := by
          rw [hdec']; exact splitFirstEq_append k' v' hk'
        rw [hsp] at hx
        simp only [Option.some.injEq, Prod.mk.injEq] at hx
        obtain ⟨rfl, rfl⟩ := hx
        exact hlook'

/-- C7 counterexample: with a `nil` label map and the non-empty selector
`"a="`, the matcher accepts even though the clause's key exists in no label
map — the Go map read of a missing key yields the zero value `""`, which
compares equal to the clause's empty value.  The claim's "missing keys …
cause rejection" is therefore false as stated. -/
theorem selector_missing_key_counterexample :
    matchKV ([] : List (GoStr × GoStr)) "a=".toList = true ∧
    trimSpace "a=".toList ≠ [] ∧
    ([] : List (GoStr × GoStr)).find? (fun kv => decide (kv.1 = "a".toList)) = none := by
  decide

theorem matchKV_iff (lbls : List (GoStr × GoStr)) (sel : GoStr) :
    matchKV lbls sel = true ↔
      ∀ p ∈ splitCh ',' sel, trimSpace p ≠ [] →
        ∃ k v, trimSpace p = k ++ '=' :: v ∧ '=' ∉ k ∧ lookupGo lbls k = v := by
  unfold matchKV
  rw [List.all_eq_true]
  constructor
  · intro h p hp
    exact (evalClause_eq_true lbls p).mp (h p hp)
  · intro h p hp
    exact (evalClause_eq_true lbls p).mpr (h p hp)

/-- C7 (amended): the matcher accepts exactly when every clause that is
non-empty after trimming decomposes as `key=value` (key free of `'='`, value
everything after the first `'='`) and the label map's value at the key —
the empty string when the key is absent, as `lookupGo` reads it — equals the
clause's value, case-sensitively.  A missing key therefore rejects exactly
when the clause's value is non-empty, and a nil label map rejects any
selector containing a clause with a non-empty value. -/
theorem selector_match_characterization (lbls : List (GoStr × GoStr)) (sel : GoStr) :
    matchKV lbls sel = true ↔
      ∀ p ∈ splitCh ',' sel, trimSpace p ≠ [] →
        ∃ k v, trimSpace p = k ++ '=' :: v ∧ '=' ∉ k ∧ lookupGo lbls k = v :=
  matchKV_iff lbls sel

theorem selector_match_characterization_witness :
    ∃ k v, trimSpace "app=test".toList = k ++ '=' :: v ∧ '=' ∉ k ∧
      lookupGo [("app".toList, "test".toList)] k = v := by
  have h := (selector_match_characterization
    [("app".toList, "test".toList)] "app=test".toList).mp (by decide)
  exact h "app=test".toList (by decide) (by decide)

/-- C8: the selector matcher laws.  (1) The empty selector matches every
label map, including the empty (nil) one.  (2) A selector containing a
non-empty clause with no `'='` rejects every label map.  (3) Splitting a
selector at a comma splits the match conjunctively, so empty clauses from
leading, trailing, or doubled commas are skipped rather than rejected.
(4) Whitespace wrapped around a clause does not change that clause's
evaluation (`matchKV` evaluates each comma-separated part with
`evalClause`).  (5) A clause `key=value` whose value contains `'='` is split
at the clause's first `'='` only, preserving the rest verbatim. -/
theorem selector_matcher_laws :
    (∀ lbls : List (GoStr × GoStr), matchKV lbls [] = true) ∧
    (∀ (lbls : List (GoStr × GoStr)) (sel : GoStr),
      (∃ p ∈ splitCh ',' sel, trimSpace p ≠ [] ∧ '=' ∉ trimSpace p) →
      matchKV lbls sel = false) ∧
    (∀ (lbls : List (GoStr × GoStr)) (s₁ s₂ : GoStr),
      matchKV lbls (s₁ ++ ',' :: s₂) = (matchKV lbls s₁ && matchKV lbls s₂)) ∧
    (∀ (lbls : List (GoStr × GoStr)) (w₁ w₂ p : GoStr),
      (∀ ch ∈ w₁, goIsSpace ch = true) → (∀ ch ∈ w₂, goIsSpace ch = true) →
      evalClause lbls (w₁ ++ p ++ w₂) = evalClause lbls p) ∧
    (∀ k v : GoStr, '=' ∉ k → splitFirstEq (k ++ '=' :: v) = some (k, v)) := by
  refine ⟨?_, ?_, ?_, ?_, ?_⟩
  · intro lbls
    rfl
  · intro lbls sel ⟨p, hp, hne, hmem⟩
    rcases hall : matchKV lbls sel with _ | _
    · rfl
    · exfalso
      have h := (matchKV_iff lbls sel).mp hall p hp hne
      obtain ⟨k, v, hdec, hk, _⟩ := h
      have : splitFirstEq (trimSpace p) = some (k, v) := by
        rw [hdec]; exact splitFirstEq_append k v hk
      rw [(splitFirstEq_eq_none (trimSpace p)).mpr hmem] at this
      exact absurd this (by simp)
  · intro lbls s₁ s₂
    unfold matchKV
    rw [splitCh_append, List.all_append]
  · intro lbls w₁ w₂ p h₁ h₂
    unfold evalClause
    rw [trimSpace_spacey h₁ h₂]
  · exact splitFirstEq_append

theorem selector_matcher_laws_witness :
    matchKV [("app".toList, "test".toList)] "app".toList = false ∧
    matchKV [("app".toList, "test".toList)] (",app=test".toList ++ ',' :: ",".toList)
      = (matchKV [("app".toList, "test".toList)] ",app=test".toList
          && matchKV [("app".toList, "test".toList)] ",".toList) ∧
    splitFirstEq ("config".toList ++ '=' :: "key=value".toList)
      = some ("config".toList, "key=value".toList) := by
  refine ⟨?_, ?_, ?_⟩
  · exact selector_matcher_laws.2.1 _ _ ⟨"app".toList, by decide, by decide, by decide⟩
  · exact selector_matcher_laws.2.2.1 _ _ _
  · exact selector_matcher_laws.2.2.2.2 _ _ (by decide)

/-! ## Sanitizer claims -/

theorem splitCh_joinCh (c : Char) (segs : List GoStr) (hne : segs ≠ [])
    (hfree : ∀ g ∈ segs, c ∉ g) : splitCh c (joinCh c segs) = segs := by
  induction segs with
  | nil => exact absurd rfl hne
  | cons s rest ih =>
    cases rest with
    | nil => simp [joinCh, splitCh_no_sep c s (hfree s (by simp))]
    | cons s₂ rest₂ =>
      show splitCh c (s ++ c :: joinCh c (s₂ :: rest₂)) = _
      rw [splitCh_append, splitCh_no_sep c s (hfree s (by simp)),
        ih (by simp) (fun g hg => hfree g (List.mem_cons_of_mem s hg))]
      rfl

/-- C9: the table identifier sanitizer is a pure deterministic function;
empty input yields the quoted default `"public"."server"`; an input built by
dot-joining any non-empty list of dot-free segments sanitizes to the dot-join
of the independently quoted segments; and arbitrary characters (spaces,
reserved words) are quoted rather than rejected, as on the repo's own test
vectors. -/
theorem sanitizer_properties :
    (∀ s t : GoStr, s = t → sanitizeTableIdent s = sanitizeTableIdent t) ∧
    sanitizeTableIdent [] = "\"public\".\"server\"".toList ∧
    (∀ segs : List GoStr, segs ≠ [] → (∀ g ∈ segs, '.' ∉ g) →
      joinCh '.' segs ≠ [] →
      sanitizeTableIdent (joinCh '.' segs) = joinCh '.' (segs.map quoteSegment)) ∧
    sanitizeTableIdent "my table".toList = "\"my table\"".toList ∧
    sanitizeTableIdent "public.select".toList = "\"public\".\"select\"".toList := by
  refine ⟨fun s t h => by rw [h], by decide, ?_, by decide, by decide⟩
  intro segs hne hfree hjoin
  unfold sanitizeTableIdent
  rw [if_neg hjoin, splitCh_joinCh '.' segs hne hfree]

theorem sanitizer_properties_witness :
    sanitizeTableIdent (joinCh '.' ["public".toList, "select".toList])
      = joinCh '.' (["public".toList, "select".toList].map quoteSegment) := by
  exact sanitizer_properties.2.2.1 _ (by decide) (by decide) (by decide)

/-! ## Endpoint admission and identity claims -/

/-- C2: an endpoint entry contributes a desired row iff it has at least one
address and its readiness flag is `true` or absent (absent treated as ready);
an explicitly not-ready entry or an address-less entry contributes nothing. -/
theorem endpoint_admission_iff (ep : Endpoint) (ns service : GoStr) :
    (endpointToRow ep ns service).isSome = true ↔
      1 ≤ ep.addresses.length ∧
        (ep.conditions.ready = some true ∨ ep.conditions.ready = none) := by
  obtain ⟨addrs, ⟨ready⟩, tref⟩ := ep
  cases ready with
  | none => cases addrs <;> simp [endpointToRow]
  | some b => cases b <;> cases addrs <;> simp [endpointToRow]

/-- C3 counterexample: this admitted endpoint references a pod object (a
`Pod` target reference, with empty UID), yet its derived identity is the
`namespace/service/address` composite, not the referenced pod's unique
identifier (the empty string) — so "identity equals the backing pod's unique
identifier whenever the endpoint references a pod object" fails as stated. -/
theorem endpoint_identity_counterexample :
    epEmptyUid.targetRef = some ⟨"Pod".toList, [], "pod-name-empty-uid".toList⟩ ∧
    (endpointToRow epEmptyUid "default".toList "my-service".toList).map endpointRow.UID
      = some "default/my-service/10.0.0.8".toList ∧
    "default/my-service/10.0.0.8".toList ≠ ([] : GoStr) := by decide

/-- C3 (amended): for every admitted endpoint entry the derived identity
equals the backing pod's unique identifier when the endpoint references a pod
object *with a non-empty unique identifier*, and otherwise equals the
composite `namespace ++ "/" ++ service ++ "/" ++ first address`; in
particular the spec's scenario (readiness unset, one address `10.0.0.2`, no
backing-pod reference, namespace `default`, service `my-service`) derives
`default/my-service/10.0.0.2`. -/
theorem endpoint_identity_derivation (ep : Endpoint) (ns service : GoStr)
    (row : endpointRow) (h : endpointToRow ep ns service = some row) :
    (∀ tr, ep.targetRef = some tr → tr.kind = "Pod".toList → tr.uid ≠ [] →
      row.UID = tr.uid) ∧
    ((∀ tr, ep.targetRef = some tr → tr.kind = "Pod".toList → tr.uid = []) →
      ∃ rest, ep.addresses = row.IP :: rest ∧
        row.UID = ns ++ '/' :: service ++ '/' :: row.IP) ∧
    endpointToRow ⟨["10.0.0.2".toList], ⟨none⟩, none⟩ "default".toList "my-service".toList
      = some ⟨"default/my-service/10.0.0.2".toList, [], "10.0.0.2".toList⟩ := by
  unfold endpointToRow at h
  split at h
  · exact absurd h (by simp)
  · rcases haddr : ep.addresses with _ | ⟨ip, rest⟩
    · rw [haddr] at h
      exact absurd h (by simp)
    · rw [haddr] at h
      refine ⟨?_, ?_, by decide⟩
      · intro tr htr hkind huid
        rw [htr] at h
        simp only [hkind] at h
        simp [huid] at h
        simp [← h]
      · intro hall
        rcases htr : ep.targetRef with _ | ⟨tr⟩
        · rw [htr] at h
          simp at h
          simp only [← h]
          exact ⟨rest, by simp, by simp⟩
        · rw [htr] at h
          by_cases hkind : tr.kind = "Pod".toList
          · have huid : tr.uid = [] := hall tr htr hkind
            simp only [hkind] at h
            simp [huid] at h
            simp only [← h]
            exact ⟨rest, by simp, by simp⟩
          · simp only [if_neg hkind] at h
            simp at h
            simp only [← h]
            exact ⟨rest, by simp, by simp⟩

theorem endpoint_identity_derivation_witness :
    endpointRow.UID ⟨"pod-uid-123".toList, "pod-name-123".toList, "10.0.0.1".toList⟩
      = "pod-uid-123".toList := by
  have h := endpoint_identity_derivation
    ⟨["10.0.0.1".toList], ⟨some true⟩,
      some ⟨"Pod".toList, "pod-uid-123".toList, "pod-name-123".toList⟩⟩
    "default".toList "my-service".toList
    ⟨"pod-uid-123".toList, "pod-name-123".toList, "10.0.0.1".toList⟩ (by decide)
  exact h.1 ⟨"Pod".toList, "pod-uid-123".toList, "pod-name-123".toList⟩ rfl rfl (by decide)

/-- C10: an endpoint whose target reference has a kind other than `Pod` is
treated as having no reference at all — composite identity and empty display
name, the reference's name discarded — while a `Pod` reference with empty UID
also falls back to the composite identity but keeps the pod's name as the
display name. -/
theorem targetref_kind_handling :
    (∀ (ep : Endpoint) (ns service : GoStr) (tr : ObjectReference) (ip : GoStr)
        (rest : List GoStr),
      ep.targetRef = some tr → tr.kind ≠ "Pod".toList →
      ep.addresses = ip :: rest → ep.conditions.ready ≠ some false →
      endpointToRow ep ns service = some ⟨ns ++ '/' :: service ++ '/' :: ip, [], ip⟩) ∧
    (∀ (ep : Endpoint) (ns service : GoStr) (tr : ObjectReference) (ip : GoStr)
        (rest : List GoStr),
      ep.targetRef = some tr → tr.kind = "Pod".toList → tr.uid = [] →
      ep.addresses = ip :: rest → ep.conditions.ready ≠ some false →
      endpointToRow ep ns service
        = some ⟨ns ++ '/' :: service ++ '/' :: ip, tr.name, ip⟩) := by
  constructor
  · intro ep ns service tr ip rest htr hkind haddr hready
    unfold endpointToRow
    rw [if_neg hready, haddr, htr]
    simp only [if_neg hkind]
    simp
  · intro ep ns service tr ip rest htr hkind huid haddr hready
    unfold endpointToRow
    rw [if_neg hready, haddr, htr]
    simp only [hkind, huid]
    simp

theorem targetref_kind_handling_witness :
    endpointToRow epNode "default".toList "my-service".toList
      = some ⟨"default/my-service/10.0.0.3".toList, [], "10.0.0.3".toList⟩ ∧
    endpointToRow epEmptyUid "default".toList "my-service".toList
      = some ⟨"default/my-service/10.0.0.8".toList, "pod-name-empty-uid".toList,
          "10.0.0.8".toList⟩ := by
  constructor
  · have h := targetref_kind_handling.1 epNode "default".toList "my-service".toList
      ⟨"Node".toList, "node-uid-123".toList, "node-name-123".toList⟩
      "10.0.0.3".toList [] rfl (by decide) rfl (by decide)
    rw [h]; decide
  · have h := targetref_kind_handling.2 epEmptyUid "default".toList "my-service".toList
      ⟨"Pod".toList, [], "pod-name-empty-uid".toList⟩
      "10.0.0.8".toList [] rfl rfl rfl rfl (by decide)
    rw [h]; decide

/-! ## Lemmas about the table operations -/

theorem rowKeyIs_iff {r : Row} {c n s u : GoStr} :
    rowKeyIs r c n s u = true ↔
      r.cluster = c ∧ r.ns = n ∧ r.service = s ∧ r.pod_uid = u := by
  simp [rowKeyIs]

theorem inPartition_iff {r : Row} {c n s : GoStr} :
    inPartition r c n s = true ↔ r.cluster = c ∧ r.ns = n ∧ r.service = s := by
  simp [inPartition]

theorem hasPartRow_upsertRow (now : Nat) (db : List Row) (c n s u' nm ip u : GoStr) :
    hasPartRow (upsertRow now db c n s u' nm ip) c n s u ↔
      hasPartRow db c n s u ∨ u = u' := by
  unfold upsertRow hasPartRow
  split
  · next hany =>
    rw [List.any_eq_true] at hany
    obtain ⟨r0, hr0, hk0⟩ := hany
    constructor
    · rintro ⟨r', hr', hk'⟩
      rw [List.mem_map] at hr'
      obtain ⟨r1, hr1, rfl⟩ := hr'
      by_cases hk1 : rowKeyIs r1 c n s u' = true
      · rw [if_pos hk1, rowKeyIs_iff] at hk'
        exact Or.inl ⟨r1, hr1, rowKeyIs_iff.mpr (by simpa using hk')⟩
      · rw [if_neg hk1] at hk'
        exact Or.inl ⟨r1, hr1, hk'⟩
    · rintro (⟨r, hr, hk⟩ | rfl)
      · refine ⟨if rowKeyIs r c n s u' = true then
          { r with pod_ip := ip, ready := true, last_seen := now } else r,
          List.mem_map_of_mem _ hr, ?_⟩
        split
        · rw [rowKeyIs_iff] at hk ⊢
          simpa using hk
        · exact hk
      · refine ⟨{ r0 with pod_ip := ip, ready := true, last_seen := now },
          ?_, ?_⟩
        · rw [List.mem_map]
          exact ⟨r0, hr0, by rw [if_pos hk0]⟩
        · rw [rowKeyIs_iff] at hk0 ⊢
          simpa using hk0
  · next hany =>
    constructor
    · rintro ⟨r', hr', hk'⟩
      rw [List.mem_append] at hr'
      rcases hr' with hr' | hr'
      · exact Or.inl ⟨r', hr', hk'⟩
      · simp only [List.mem_singleton] at hr'
        subst hr'
        rw [rowKeyIs_iff] at hk'
        exact Or.inr hk'.2.2.2.symm
    · rintro (⟨r, hr, hk⟩ | rfl)
      · exact ⟨r, List.mem_append_left _ hr, hk⟩
      · refine ⟨_, List.mem_append_right _ (List.mem_singleton_self _), ?_⟩
        rw [rowKeyIs_iff]
        exact ⟨rfl, rfl, rfl, rfl⟩

theorem hasPartRow_upsertRows (now : Nat) (c n s : GoStr)
    (entries : List (GoStr × endpointRow)) (db : List Row) (u : GoStr) :
    hasPartRow (upsertRows now c n s entries db) c n s u ↔
      hasPartRow db c n s u ∨ ∃ ke ∈ entries, ke.2.UID = u := by
  induction entries generalizing db with
  | nil =>
    constructor
    · exact fun h => Or.inl h
    · rintro (h | ⟨x, hx, _⟩)
      · exact h
      · exact absurd hx (List.not_mem_nil x)
  | cons ke rest ih =>
    show hasPartRow (upsertRows now c n s rest
      (upsertRow now db c n s ke.2.UID ke.2.Name ke.2.IP)) c n s u ↔ _
    rw [ih, hasPartRow_upsertRow]
    simp only [List.mem_cons]
    constructor
    · rintro ((h | rfl) | ⟨x, hx, hux⟩)
      · exact Or.inl h
      · exact Or.inr ⟨ke, Or.inl rfl, rfl⟩
      · exact Or.inr ⟨x, Or.inr hx, hux⟩
    · rintro (h | ⟨x, (rfl | hx), hux⟩)
      · exact Or.inl (Or.inl h)
      · exact Or.inl (Or.inr hux.symm)
      · exact Or.inr ⟨x, hx, hux⟩

theorem hasPartRow_pruneDb (db : List Row) (c n s : GoStr) (uids : List GoStr)
    (u : GoStr) :
    hasPartRow (pruneDb db c n s uids) c n s u ↔
      hasPartRow db c n s u ∧ u ∈ uids := by
  unfold pruneDb hasPartRow
  constructor
  · rintro ⟨r, hr, hk⟩
    rw [List.mem_filter] at hr
    obtain ⟨hrdb, hcond⟩ := hr
    obtain ⟨hc, hn, hs, hu⟩ := rowKeyIs_iff.mp hk
    have hp : inPartition r c n s = true := inPartition_iff.mpr ⟨hc, hn, hs⟩
    rw [hp] at hcond
    simp only [Bool.true_and, Bool.not_eq_true', decide_eq_false_iff_not,
      Decidable.not_not] at hcond
    exact ⟨⟨r, hrdb, hk⟩, hu ▸ hcond⟩
  · rintro ⟨⟨r, hr, hk⟩, hu⟩
    refine ⟨r, ?_, hk⟩
    rw [List.mem_filter]
    obtain ⟨hc, hn, hs, hru⟩ := rowKeyIs_iff.mp hk
    refine ⟨hr, ?_⟩
    simp [hru, hu]

theorem pruneDb_uid_mem {db : List Row} {c n s : GoStr} {uids : List GoStr}
    {r : Row} (hr : r ∈ pruneDb db c n s uids)
    (hp : inPartition r c n s = true) : r.pod_uid ∈ uids := by
  unfold pruneDb at hr
  rw [List.mem_filter] at hr
  obtain ⟨_, hcond⟩ := hr
  rw [hp] at hcond
  simpa using hcond

theorem mem_wipeDb {db : List Row} {c n s : GoStr} {r : Row} :
    r ∈ wipeDb db c n s ↔
      r ∈ db ∧ ¬(r.cluster = c ∧ r.ns = n ∧ r.service = s) := by
  unfold wipeDb
  rw [List.mem_filter]
  constructor
  · rintro ⟨hr, hp⟩
    refine ⟨hr, fun hc => ?_⟩
    rw [inPartition_iff.mpr hc] at hp
    simp at hp
  · rintro ⟨hr, hp⟩
    refine ⟨hr, ?_⟩
    cases hq : inPartition r c n s
    · rfl
    · exact absurd (inPartition_iff.mp hq) hp

/-! ## Transaction and reconcile-path lemmas -/

theorem execTx_some (now : Nat) (okFlags : List Bool) :
    ∀ (stmts : List Stmt) (idx : Nat) (snap : List Row) (done done' : List Stmt)
      (out : List Row),
      execTx now okFlags idx snap done stmts = (some out, done') →
      out = stmts.foldl (applyStmt now) snap := by
  intro stmts
  induction stmts with
  | nil =>
    intro idx snap done done' out h
    simp only [execTx, Prod.mk.injEq, Option.some.injEq] at h
    rw [← h.1]
    rfl
  | cons st rest ih =>
    intro idx snap done done' out h
    simp only [execTx] at h
    split at h
    · exact ih _ _ _ _ _ h
    · simp at h

theorem execTx_allOk (now : Nat) :
    ∀ (stmts : List Stmt) (idx : Nat) (snap : List Row) (done : List Stmt),
      execTx now [] idx snap done stmts =
        (some (stmts.foldl (applyStmt now) snap), done ++ stmts) := by
  intro stmts
  induction stmts with
  | nil => intro idx snap done; simp [execTx]
  | cons st rest ih =>
    intro idx snap done
    simp only [execTx, List.getD_nil, if_pos]
    rw [ih]
    simp

theorem foldl_upsert_stmts (now : Nat) (tbl c n s : GoStr)
    (entries : List (GoStr × endpointRow)) (db : List Row) :
    ((entries.map (fun ke =>
        Stmt.upsert tbl c n s ke.2.UID ke.2.Name ke.2.IP)).foldl
      (applyStmt now) db) = upsertRows now c n s entries db := by
  induction entries generalizing db with
  | nil => rfl
  | cons ke rest ih =>
    show ((rest.map _).foldl (applyStmt now)
      (applyStmt now db (Stmt.upsert tbl c n s ke.2.UID ke.2.Name ke.2.IP))) = _
    rw [ih]
    rfl

theorem commitResult_err_db {db : List Row} {commitOk : Bool}
    {p : Option (List Row) × List Stmt}
    (h : (commitResult db commitOk p).isErr = true) :
    (commitResult db commitOk p).db = db := by
  rcases p with ⟨_ | snap, done⟩
  · rfl
  · unfold commitResult at h ⊢
    rcases hc : commitOk with _ | _
    · simp
    · rw [hc] at h
      simp at h

theorem commitResult_ok {db : List Row} {commitOk : Bool}
    {p : Option (List Row) × List Stmt}
    (h : (commitResult db commitOk p).isErr = false) :
    ∃ snap done, p = (some snap, done) ∧
      (commitResult db commitOk p).db = snap := by
  rcases p with ⟨_ | snap, done⟩
  · simp [commitResult] at h
  · refine ⟨snap, done, rfl, ?_⟩
    unfold commitResult at h ⊢
    rcases hc : commitOk with _ | _
    · rw [hc] at h
      simp at h
    · simp

theorem foldl_syncStmts (now : Nat) (cfg : EsConfig)
    (desired : List (GoStr × endpointRow)) (ns service : GoStr) (db : List Row) :
    (syncStmts cfg desired ns service).foldl (applyStmt now) db =
      pruneDb (upsertRows now cfg.clusterName ns service desired db)
        cfg.clusterName ns service (desired.map Prod.fst) := by
  unfold syncStmts
  rw [List.foldl_append, foldl_upsert_stmts]
  rfl

theorem syncToDatabase_err_db (cfg : EsConfig) (env : EsEnv)
    (desired : List (GoStr × endpointRow)) (ns service : GoStr) (db : List Row) :
    (syncToDatabase cfg env desired ns service db).isErr = true →
    (syncToDatabase cfg env desired ns service db).db = db := by
  unfold syncToDatabase
  split
  · intro _; rfl
  · exact commitResult_err_db

theorem syncToDatabase_success (cfg : EsConfig) (env : EsEnv)
    (desired : List (GoStr × endpointRow)) (ns service : GoStr) (db : List Row)
    (hok : (syncToDatabase cfg env desired ns service db).isErr = false) :
    (syncToDatabase cfg env desired ns service db).db =
      pruneDb (upsertRows env.now cfg.clusterName ns service desired db)
        cfg.clusterName ns service (desired.map Prod.fst) := by
  unfold syncToDatabase at hok ⊢
  split at hok
  · simp at hok
  · next hbeg =>
    rw [if_neg hbeg]
    obtain ⟨snap, done, hp, hdb⟩ := commitResult_ok hok
    rw [hdb]
    have hsnap := execTx_some env.now env.execOk
      (syncStmts cfg desired ns service) 0 db [] done snap hp
    rw [hsnap, foldl_syncStmts]

theorem syncToDatabase_allOk (cfg : EsConfig) (env : EsEnv)
    (desired : List (GoStr × endpointRow)) (ns service : GoStr) (db : List Row)
    (hb : env.beginOk = true) (he : env.execOk = []) (hc : env.commitOk = true) :
    (syncToDatabase cfg env desired ns service db).isErr = false := by
  unfold syncToDatabase
  rw [if_neg (by rw [hb]; simp), he, execTx_allOk]
  unfold commitResult
  rw [hc]
  simp

theorem esReconcile_found (cfg : EsConfig) (env : EsEnv) (db : List Row)
    (es : EndpointSlice) (items : List EndpointSlice)
    (hf : env.fetch = .found es)
    (hsel : cfg.labelSelector = [] ∨ matchKV es.labels cfg.labelSelector = true)
    (hsvc : lookupGo es.labels serviceNameLabel ≠ [])
    (hl : env.listed = some items) :
    esReconcile cfg env db = syncToDatabase cfg env
      (buildDesiredRows cfg.labelSelector items
        (lookupGo es.labels serviceNameLabel))
      es.ns (lookupGo es.labels serviceNameLabel) db := by
  have hcond : ¬(cfg.labelSelector ≠ [] ∧
      matchKV es.labels cfg.labelSelector = false) := by
    rcases hsel with h | h
    · simp [h]
    · simp [h]
  simp only [esReconcile, hf, hl]
  rw [if_neg hcond, if_neg hsvc]

/-! ## Invariants of the desired map -/

theorem foldl_preserve {α β : Type} (P : β → Prop) (f : β → α → β)
    (hf : ∀ b a, P b → P (f b a)) :
    ∀ (l : List α) (b : β), P b → P (l.foldl f b) := by
  intro l
  induction l with
  | nil => exact fun b hb => hb
  | cons a rest ih => exact fun b hb => ih (f b a) (hf b a hb)

theorem mapInsert_mem {m : List (GoStr × endpointRow)} {k : GoStr}
    {v : endpointRow} {ke : GoStr × endpointRow} (h : ke ∈ mapInsert m k v) :
    ke ∈ m ∨ ke = (k, v) := by
  unfold mapInsert at h
  rw [List.mem_append] at h
  rcases h with h | h
  · exact Or.inl (List.mem_filter.mp h).1
  · simp only [List.mem_singleton] at h
    exact Or.inr h

theorem mapInsert_keys_nodup {m : List (GoStr × endpointRow)} {k : GoStr}
    {v : endpointRow} (hm : (m.map Prod.fst).Nodup) :
    ((mapInsert m k v).map Prod.fst).Nodup := by
  unfold mapInsert
  rw [List.map_append]
  apply List.Nodup.append
  · exact hm.sublist ((List.filter_sublist m).map Prod.fst)
  · simp
  · intro a ha hb
    simp only [List.map_cons, List.map_nil, List.mem_singleton] at hb
    subst hb
    rw [List.mem_map] at ha
    obtain ⟨kv, hkv, hkv1⟩ := ha
    have := (List.mem_filter.mp hkv).2
    rw [hkv1] at this
    simp at this

theorem insertEndpoint_uid_inv (ns service : GoStr)
    (d : List (GoStr × endpointRow)) (ep : Endpoint)
    (hd : ∀ ke ∈ d, ke.2.UID = ke.1) :
    ∀ ke ∈ insertEndpoint ns service d ep, ke.2.UID = ke.1 := by
  intro ke hke
  unfold insertEndpoint at hke
  rcases h : endpointToRow ep ns service with _ | ⟨row⟩
  · rw [h] at hke; exact hd ke hke
  · rw [h] at hke
    rcases mapInsert_mem hke with hke' | rfl
    · exact hd ke hke'
    · rfl

theorem insertEndpoint_keys_nodup (ns service : GoStr)
    (d : List (GoStr × endpointRow)) (ep : Endpoint)
    (hd : (d.map Prod.fst).Nodup) :
    ((insertEndpoint ns service d ep).map Prod.fst).Nodup := by
  unfold insertEndpoint
  rcases h : endpointToRow ep ns service with _ | ⟨row⟩
  · exact hd
  · exact mapInsert_keys_nodup hd

theorem buildDesiredRows_uid_inv (sel : GoStr) (items : List EndpointSlice)
    (service : GoStr) :
    ∀ ke ∈ buildDesiredRows sel items service, ke.2.UID = ke.1 := by
  unfold buildDesiredRows
  refine foldl_preserve (fun d => ∀ ke ∈ d, ke.2.UID = ke.1)
    (insertSlice sel service) ?_ items [] ?_
  · intro d sl hd
    unfold insertSlice
    split
    · exact hd
    · exact foldl_preserve _ _ (insertEndpoint_uid_inv sl.ns service)
        sl.endpoints d hd
  · intro ke hke
    exact absurd hke (List.not_mem_nil ke)

theorem buildDesiredRows_keys_nodup (sel : GoStr) (items : List EndpointSlice)
    (service : GoStr) :
    ((buildDesiredRows sel items service).map Prod.fst).Nodup := by
  unfold buildDesiredRows
  refine foldl_preserve (fun d => (d.map Prod.fst).Nodup)
    (insertSlice sel service) ?_ items [] ?_
  · intro d sl hd
    unfold insertSlice
    split
    · exact hd
    · exact foldl_preserve _ _ (insertEndpoint_keys_nodup sl.ns service)
        sl.endpoints d hd
  · simp

/-! ## The exact-set invariant (C1) -/

/-- C1: whenever a Membership Reconciler invocation reaches and successfully
commits its convergence transaction (object fetched, selector passed,
service-name label present, list succeeded, no statement or commit failure),
the set of `pod_uid` values present in the `(cluster, namespace, service)`
partition equals exactly the key set of the computed desired map: every
desired identity has an upserted row, and every partition row whose identity
is not desired has been pruned. -/
theorem exact_set_invariant (cfg : EsConfig) (env : EsEnv) (db : List Row)
    (es : EndpointSlice) (items : List EndpointSlice)
    (hf : env.fetch = .found es) (hl : env.listed = some items)
    (hsel : cfg.labelSelector = [] ∨ matchKV es.labels cfg.labelSelector = true)
    (hsvc : lookupGo es.labels serviceNameLabel ≠ [])
    (hok : (esReconcile cfg env db).isErr = false) :
    ∀ u : GoStr,
      hasPartRow (esReconcile cfg env db).db cfg.clusterName es.ns
          (lookupGo es.labels serviceNameLabel) u ↔
        u ∈ (buildDesiredRows cfg.labelSelector items
              (lookupGo es.labels serviceNameLabel)).map Prod.fst := by
  intro u
  rw [esReconcile_found cfg env db es items hf hsel hsvc hl] at hok ⊢
  rw [syncToDatabase_success cfg env _ es.ns
    (lookupGo es.labels serviceNameLabel) db hok]
  rw [hasPartRow_pruneDb, hasPartRow_upsertRows]
  constructor
  · rintro ⟨_, humem⟩
    exact humem
  · intro humem
    refine ⟨Or.inr ?_, humem⟩
    rw [List.mem_map] at humem
    obtain ⟨ke, hke, hke1⟩ := humem
    exact ⟨ke, hke, (buildDesiredRows_uid_inv _ _ _ ke hke).trans hke1⟩

theorem exact_set_invariant_witness :
    hasPartRow (esReconcile cfgW envW []).db cfgW.clusterName esW.ns
        (lookupGo esW.labels serviceNameLabel) "u1".toList ↔
      "u1".toList ∈ (buildDesiredRows cfgW.labelSelector [esW]
          (lookupGo esW.labels serviceNameLabel)).map Prod.fst :=
  exact_set_invariant cfgW envW [] esW [esW] rfl rfl (Or.inl rfl)
    (by decide) (by decide) "u1".toList

/-! ## Transactional atomicity of the Membership Reconciler (C4) -/

/-- C4: a Membership Reconciler invocation either leaves the table untouched
or fully updates it: whenever the invocation returns an error — begin, any
upsert, the prune, or the commit failing — the observable table is unchanged
(the transaction rolled back), and on every early-exit path (object not
found, fetch error, selector rejection, missing service-name label, list
error) no statement at all is handed to the store. -/
theorem membership_reconcile_atomicity (cfg : EsConfig) (env : EsEnv)
    (db : List Row) :
    ((esReconcile cfg env db).isErr = true → (esReconcile cfg env db).db = db) ∧
    (∀ es : EndpointSlice,
      (env.fetch = FetchResult.notFound ∨ env.fetch = FetchResult.fetchErr ∨
        (env.fetch = .found es ∧
          ((cfg.labelSelector ≠ [] ∧ matchKV es.labels cfg.labelSelector = false) ∨
            lookupGo es.labels serviceNameLabel = [] ∨ env.listed = none))) →
      (esReconcile cfg env db).stmts = [] ∧ (esReconcile cfg env db).db = db) := by
  constructor
  · unfold esReconcile
    split
    · intro _; rfl
    · intro _; rfl
    · split
      · intro _; rfl
      · split
        · intro _; rfl
        · split
          · intro _; rfl
          · exact syncToDatabase_err_db cfg env _ _ _ db
  · rintro es (hnf | hfe | ⟨hf, hcond⟩)
    · simp [esReconcile, hnf]
    · simp [esReconcile, hfe]
    · rcases hcond with hrej | hsvc | hlist
      · simp only [esReconcile, hf]
        rw [if_pos hrej]
        exact ⟨rfl, rfl⟩
      · by_cases hrej2 : cfg.labelSelector ≠ [] ∧
            matchKV es.labels cfg.labelSelector = false
        · simp only [esReconcile, hf]
          rw [if_pos hrej2]
          exact ⟨rfl, rfl⟩
        · simp only [esReconcile, hf]
          rw [if_neg hrej2, if_pos hsvc]
          exact ⟨rfl, rfl⟩
      · by_cases hrej2 : cfg.labelSelector ≠ [] ∧
            matchKV es.labels cfg.labelSelector = false
        · simp only [esReconcile, hf]
          rw [if_pos hrej2]
          exact ⟨rfl, rfl⟩
        · by_cases hsvc2 : lookupGo es.labels serviceNameLabel = []
          · simp only [esReconcile, hf]
            rw [if_neg hrej2, if_pos hsvc2]
            exact ⟨rfl, rfl⟩
          · simp only [esReconcile, hf, hlist]
            rw [if_neg hrej2, if_neg hsvc2]
            exact ⟨rfl, rfl⟩

theorem membership_reconcile_atomicity_witness :
    (esReconcile cfgW envNF []).stmts = [] ∧ (esReconcile cfgW envNF []).db = [] :=
  (membership_reconcile_atomicity cfgW envNF []).2 esW (Or.inl rfl)

/-! ## The Service Lifecycle Reconciler (C5) -/

/-- C5: if the service object is found, the Service Lifecycle Reconciler
executes no statement and succeeds; if the fetch reports not-found, it
executes exactly one delete statement removing precisely the rows whose
cluster, namespace and service match the configured cluster name and the
request key — regardless of how many such rows exist; a fetch error or a
delete error is returned to the caller with the table unchanged. -/
theorem service_lifecycle_reconcile (cfg : SvcConfig) (env : SvcEnv)
    (reqNs reqName : GoStr) (db : List Row) :
    (env.fetch = .found () → svcReconcile cfg env reqNs reqName db = ⟨db, [], false⟩) ∧
    (env.fetch = .notFound → env.execOk = true →
      (svcReconcile cfg env reqNs reqName db).stmts
          = [Stmt.wipe (sanitizeTableIdent cfg.tableName) cfg.clusterName reqNs reqName] ∧
      (svcReconcile cfg env reqNs reqName db).isErr = false ∧
      (∀ r : Row, r ∈ (svcReconcile cfg env reqNs reqName db).db ↔
        r ∈ db ∧ ¬(r.cluster = cfg.clusterName ∧ r.ns = reqNs ∧ r.service = reqName))) ∧
    (env.fetch = .notFound → env.execOk = false →
      (svcReconcile cfg env reqNs reqName db).isErr = true ∧
      (svcReconcile cfg env reqNs reqName db).db = db) ∧
    (env.fetch = .fetchErr →
      (svcReconcile cfg env reqNs reqName db).isErr = true ∧
      (svcReconcile cfg env reqNs reqName db).db = db) := by
  refine ⟨?_, ?_, ?_, ?_⟩
  · intro hf
    simp [svcReconcile, hf]
  · intro hf he
    have hdb : (svcReconcile cfg env reqNs reqName db).db
        = wipeDb db cfg.clusterName reqNs reqName := by
      simp [svcReconcile, hf, he, applyStmt]
    refine ⟨by simp [svcReconcile, hf, he], by simp [svcReconcile, hf, he], ?_⟩
    intro r
    rw [hdb, mem_wipeDb]
  · intro hf he
    simp [svcReconcile, hf, he]
  · intro hf
    simp [svcReconcile, hf]

theorem service_lifecycle_reconcile_witness :
    (svcReconcile svcCfgW svcEnvW "ns1".toList "svc1".toList []).stmts
        = [Stmt.wipe (sanitizeTableIdent svcCfgW.tableName) svcCfgW.clusterName
            "ns1".toList "svc1".toList] ∧
    (svcReconcile svcCfgW svcEnvW "ns1".toList "svc1".toList []).isErr = false :=
  let h := (service_lifecycle_reconcile svcCfgW svcEnvW "ns1".toList "svc1".toList []).2.1
    rfl rfl
  ⟨h.1, h.2.1⟩

/-! ## Idempotence machinery (C6) -/

theorem rowEqButLastSeen_refl (a : Row) : rowEqButLastSeen a a := by
  simp [rowEqButLastSeen]

theorem rowEqButLastSeen_trans {a b c : Row} (h1 : rowEqButLastSeen a b)
    (h2 : rowEqButLastSeen b c) : rowEqButLastSeen a c := by
  unfold rowEqButLastSeen at h1 h2 ⊢
  obtain ⟨h1a, h1b, h1c, h1d, h1e, h1f, h1g, h1h⟩ := h1
  obtain ⟨h2a, h2b, h2c, h2d, h2e, h2f, h2g, h2h⟩ := h2
  exact ⟨h1a.trans h2a, h1b.trans h2b, h1c.trans h2c, h1d.trans h2d,
    h1e.trans h2e, h1f.trans h2f, h1g.trans h2g, h1h.trans h2h⟩

theorem forall2_map_self {α : Type} (R : α → α → Prop) (f : α → α) (l : List α)
    (h : ∀ a ∈ l, R (f a) a) : List.Forall₂ R (l.map f) l := by
  induction l with
  | nil => simp
  | cons a rest ih =>
    rw [List.map_cons]
    exact List.Forall₂.cons (h a (List.mem_cons_self a rest))
      (ih fun x hx => h x (List.mem_cons_of_mem a hx))

theorem forall2_trans_of {α : Type} (R : α → α → Prop)
    (htrans : ∀ a b c, R a b → R b c → R a c) :
    ∀ {l₁ l₂ l₃ : List α}, List.Forall₂ R l₁ l₂ → List.Forall₂ R l₂ l₃ →
      List.Forall₂ R l₁ l₃ := by
  intro l₁ l₂ l₃ h12
  induction h12 generalizing l₃ with
  | nil => intro h23; cases h23; exact List.Forall₂.nil
  | cons hab h ih =>
    intro h23
    cases h23 with
    | cons hbc h' => exact List.Forall₂.cons (htrans _ _ _ hab hbc) (ih h')

theorem forall2_mem_left {α : Type} {R : α → α → Prop} :
    ∀ {l₁ l₂ : List α}, List.Forall₂ R l₁ l₂ → ∀ a ∈ l₁, ∃ b ∈ l₂, R a b := by
  intro l₁ l₂ h
  induction h with
  | nil => intro a ha; exact absurd ha (List.not_mem_nil a)
  | cons hab h ih =>
    intro x hx
    rcases List.mem_cons.mp hx with rfl | hx'
    · exact ⟨_, List.mem_cons_self _ _, hab⟩
    · obtain ⟨b, hb, hRb⟩ := ih x hx'
      exact ⟨b, List.mem_cons_of_mem _ hb, hRb⟩

theorem goodRow_upsert_self (now : Nat) (db : List Row) (c n s u nm ip : GoStr) :
    goodRow (upsertRow now db c n s u nm ip) c n s u ip := by
  unfold upsertRow goodRow
  split
  · next hany =>
    rw [List.any_eq_true] at hany
    obtain ⟨r0, hr0, hk0⟩ := hany
    obtain ⟨hc, hn, hs, hu⟩ := rowKeyIs_iff.mp hk0
    constructor
    · refine ⟨_, List.mem_map_of_mem _ hr0, ?_⟩
      rw [if_pos hk0]
      exact rowKeyIs_iff.mpr ⟨hc, hn, hs, hu⟩
    · intro r' hr' hk'
      rw [List.mem_map] at hr'
      obtain ⟨r1, hr1, rfl⟩ := hr'
      by_cases hk1 : rowKeyIs r1 c n s u = true
      · rw [if_pos hk1]
        exact ⟨rfl, rfl⟩
      · rw [if_neg hk1] at hk'
        exact absurd hk' hk1
  · next hany =>
    constructor
    · refine ⟨_, List.mem_append_right _ (List.mem_singleton_self _), ?_⟩
      exact rowKeyIs_iff.mpr ⟨rfl, rfl, rfl, rfl⟩
    · intro r' hr' hk'
      rw [List.mem_append] at hr'
      rcases hr' with hr' | hr'
      · exact absurd (List.any_eq_true.mpr ⟨r', hr', hk'⟩) hany
      · simp only [List.mem_singleton] at hr'
        subst hr'
        exact ⟨rfl, rfl⟩

theorem goodRow_upsert_other (now : Nat) (db : List Row)
    (c n s u u' nm ip' ip : GoStr) (hne : u ≠ u')
    (hg : goodRow db c n s u ip) :
    goodRow (upsertRow now db c n s u' nm ip') c n s u ip := by
  obtain ⟨⟨r0, hr0, hk0⟩, hall⟩ := hg
  unfold upsertRow
  split
  · constructor
    · have hk0' : ¬rowKeyIs r0 c n s u' = true := by
        intro hq
        obtain ⟨_, _, _, hu'⟩ := rowKeyIs_iff.mp hq
        obtain ⟨_, _, _, hu⟩ := rowKeyIs_iff.mp hk0
        exact hne (hu.symm.trans hu')
      refine ⟨_, List.mem_map_of_mem _ hr0, ?_⟩
      rw [if_neg hk0']
      exact hk0
    · intro r' hr' hk'
      rw [List.mem_map] at hr'
      obtain ⟨r1, hr1, rfl⟩ := hr'
      by_cases hk1 : rowKeyIs r1 c n s u' = true
      · rw [if_pos hk1] at hk'
        obtain ⟨_, _, _, hu1⟩ := rowKeyIs_iff.mp hk'
        obtain ⟨_, _, _, hu1'⟩ := rowKeyIs_iff.mp hk1
        exact absurd ((show r1.pod_uid = u from hu1).symm.trans hu1') hne
      · rw [if_neg hk1] at hk' ⊢
        exact hall r1 hr1 hk'
  · constructor
    · exact ⟨r0, List.mem_append_left _ hr0, hk0⟩
    · intro r' hr' hk'
      rw [List.mem_append] at hr'
      rcases hr' with hr' | hr'
      · exact hall r' hr' hk'
      · simp only [List.mem_singleton] at hr'
        subst hr'
        obtain ⟨_, _, _, hu⟩ := rowKeyIs_iff.mp hk'
        exact absurd (show u' = u from hu).symm hne

theorem goodRow_pruneDb (db : List Row) (c n s : GoStr) (uids : List GoStr)
    (u ip : GoStr) (hg : goodRow db c n s u ip) (hu : u ∈ uids) :
    goodRow (pruneDb db c n s uids) c n s u ip := by
  obtain ⟨⟨r0, hr0, hk0⟩, hall⟩ := hg
  constructor
  · refine ⟨r0, ?_, hk0⟩
    unfold pruneDb
    rw [List.mem_filter]
    obtain ⟨_, _, _, hu0⟩ := rowKeyIs_iff.mp hk0
    refine ⟨hr0, ?_⟩
    simp [hu0, hu]
  · intro r hr hk
    exact hall r (List.mem_filter.mp ((by unfold pruneDb at hr; exact hr))).1 hk

theorem goodRow_upsertRows_preserve (now : Nat) (c n s : GoStr)
    (entries : List (GoStr × endpointRow)) (db : List Row) (u ip : GoStr)
    (hne : ∀ ke ∈ entries, ke.2.UID ≠ u) (hg : goodRow db c n s u ip) :
    goodRow (upsertRows now c n s entries db) c n s u ip := by
  induction entries generalizing db with
  | nil => exact hg
  | cons ke rest ih =>
    show goodRow (upsertRows now c n s rest
      (upsertRow now db c n s ke.2.UID ke.2.Name ke.2.IP)) c n s u ip
    exact ih _ (fun x hx => hne x (List.mem_cons_of_mem ke hx))
      (goodRow_upsert_other now db c n s u ke.2.UID ke.2.Name ke.2.IP ip
        (fun hc => hne ke (List.mem_cons_self ke rest) hc.symm) hg)

theorem goodRow_upsertRows (now : Nat) (c n s : GoStr)
    (entries : List (GoStr × endpointRow)) (db : List Row)
    (k : GoStr) (e : endpointRow) (hmem : (k, e) ∈ entries)
    (huid : ∀ ke ∈ entries, ke.2.UID = ke.1)
    (hnd : (entries.map Prod.fst).Nodup) :
    goodRow (upsertRows now c n s entries db) c n s k e.IP := by
  induction entries generalizing db with
  | nil => exact absurd hmem (List.not_mem_nil _)
  | cons ke rest ih =>
    have hnd' := hnd
    rw [List.map_cons, List.nodup_cons] at hnd'
    obtain ⟨hnotin, hndrest⟩ := hnd'
    rcases List.mem_cons.mp hmem with heq | hmem'
    · subst heq
      show goodRow (upsertRows now c n s rest
        (upsertRow now db c n s e.UID e.Name e.IP)) c n s k e.IP
      have hkuid : e.UID = k := huid (k, e) (List.mem_cons_self _ _)
      apply goodRow_upsertRows_preserve
      · intro x hx
        rw [huid x (List.mem_cons_of_mem _ hx)]
        intro hcontra
        apply hnotin
        show (k, e).1 ∈ rest.map Prod.fst
        rw [show ((k, e).1 : GoStr) = x.1 from hcontra.symm]
        exact List.mem_map_of_mem Prod.fst hx
      · rw [← hkuid]
        exact goodRow_upsert_self now db c n s e.UID e.Name e.IP
    · show goodRow (upsertRows now c n s rest
        (upsertRow now db c n s ke.2.UID ke.2.Name ke.2.IP)) c n s k e.IP
      exact ih _ hmem' (fun x hx => huid x (List.mem_cons_of_mem ke hx)) hndrest

theorem upsertRows_forall2 (now : Nat) (c n s : GoStr)
    (entries : List (GoStr × endpointRow)) (db1 : List Row)
    (hnd : (entries.map Prod.fst).Nodup)
    (huid : ∀ ke ∈ entries, ke.2.UID = ke.1)
    (hgood : ∀ ke ∈ entries, goodRow db1 c n s ke.1 ke.2.IP) :
    List.Forall₂ rowEqButLastSeen (upsertRows now c n s entries db1) db1 := by
  induction entries generalizing db1 with
  | nil => exact List.forall₂_same.mpr fun a _ => rowEqButLastSeen_refl a
  | cons ke rest ih =>
    show List.Forall₂ rowEqButLastSeen (upsertRows now c n s rest
      (upsertRow now db1 c n s ke.2.UID ke.2.Name ke.2.IP)) db1
    have hnd' := hnd
    rw [List.map_cons, List.nodup_cons] at hnd'
    obtain ⟨hnotin, hndrest⟩ := hnd'
    have hku : ke.2.UID = ke.1 := huid ke (List.mem_cons_self ke rest)
    obtain ⟨⟨r0, hr0, hk0⟩, hall⟩ := hgood ke (List.mem_cons_self ke rest)
    have hany : db1.any (fun r => rowKeyIs r c n s ke.2.UID) = true := by
      rw [List.any_eq_true]
      refine ⟨r0, hr0, ?_⟩
      rw [hku]
      exact hk0
    have hstep : List.Forall₂ rowEqButLastSeen
        (upsertRow now db1 c n s ke.2.UID ke.2.Name ke.2.IP) db1 := by
      unfold upsertRow
      rw [if_pos hany]
      apply forall2_map_self
      intro r hr
      by_cases hk : rowKeyIs r c n s ke.2.UID = true
      · rw [if_pos hk]
        have hkk : rowKeyIs r c n s ke.1 = true := by
          rw [← hku]
          exact hk
        obtain ⟨hip, hready⟩ := hall r hr hkk
        exact ⟨rfl, rfl, rfl, rfl, rfl, hip.symm, hready.symm, rfl⟩
      · rw [if_neg hk]
        exact rowEqButLastSeen_refl r
    have hgood' : ∀ x ∈ rest, goodRow
        (upsertRow now db1 c n s ke.2.UID ke.2.Name ke.2.IP) c n s x.1 x.2.IP := by
      intro x hx
      apply goodRow_upsert_other
      · rw [hku]
        intro hcontra
        apply hnotin
        rw [← hcontra]
        exact List.mem_map_of_mem Prod.fst hx
      · exact hgood x (List.mem_cons_of_mem ke hx)
    exact forall2_trans_of rowEqButLastSeen
      (fun _ _ _ h1 h2 => rowEqButLastSeen_trans h1 h2)
      (ih _ hndrest (fun x hx => huid x (List.mem_cons_of_mem ke hx)) hgood') hstep

/-- C6: convergence idempotence.  Running the Membership Reconciler a second
time with the same observed objects (same fetched slice and same list result,
only the clock may differ), after a first successful convergence, succeeds
and leaves the table pointwise identical except for `last_seen`: the second
run recomputes the same desired map, each of its upserts takes the
conflict-update branch writing back the already-stored `pod_ip` and
`ready = true`, and its prune deletes nothing. -/
theorem convergence_idempotence (cfg : EsConfig) (env1 env2 : EsEnv)
    (db : List Row) (es : EndpointSlice) (items : List EndpointSlice)
    (hf1 : env1.fetch = .found es) (hl1 : env1.listed = some items)
    (hf2 : env2.fetch = .found es) (hl2 : env2.listed = some items)
    (hsel : cfg.labelSelector = [] ∨ matchKV es.labels cfg.labelSelector = true)
    (hsvc : lookupGo es.labels serviceNameLabel ≠ [])
    (hok1 : (esReconcile cfg env1 db).isErr = false)
    (hb2 : env2.beginOk = true) (he2 : env2.execOk = [])
    (hc2 : env2.commitOk = true) :
    (esReconcile cfg env2 (esReconcile cfg env1 db).db).isErr = false ∧
    List.Forall₂ rowEqButLastSeen
      (esReconcile cfg env2 (esReconcile cfg env1 db).db).db
      (esReconcile cfg env1 db).db := by
  rw [esReconcile_found cfg env1 db es items hf1 hsel hsvc hl1] at hok1 ⊢
  rw [esReconcile_found cfg env2 _ es items hf2 hsel hsvc hl2]
  have hdb1 := syncToDatabase_success cfg env1
    (buildDesiredRows cfg.labelSelector items (lookupGo es.labels serviceNameLabel))
    es.ns (lookupGo es.labels serviceNameLabel) db hok1
  have hok2 := syncToDatabase_allOk cfg env2
    (buildDesiredRows cfg.labelSelector items (lookupGo es.labels serviceNameLabel))
    es.ns (lookupGo es.labels serviceNameLabel)
    (syncToDatabase cfg env1
      (buildDesiredRows cfg.labelSelector items (lookupGo es.labels serviceNameLabel))
      es.ns (lookupGo es.labels serviceNameLabel) db).db hb2 he2 hc2
  have hdb2 := syncToDatabase_success cfg env2
    (buildDesiredRows cfg.labelSelector items (lookupGo es.labels serviceNameLabel))
    es.ns (lookupGo es.labels serviceNameLabel)
    (syncToDatabase cfg env1
      (buildDesiredRows cfg.labelSelector items (lookupGo es.labels serviceNameLabel))
      es.ns (lookupGo es.labels serviceNameLabel) db).db hok2
  refine ⟨hok2, ?_⟩
  have huid := buildDesiredRows_uid_inv cfg.labelSelector items
    (lookupGo es.labels serviceNameLabel)
  have hnd := buildDesiredRows_keys_nodup cfg.labelSelector items
    (lookupGo es.labels serviceNameLabel)
  have hgood : ∀ ke ∈ buildDesiredRows cfg.labelSelector items
      (lookupGo es.labels serviceNameLabel),
      goodRow (syncToDatabase cfg env1
          (buildDesiredRows cfg.labelSelector items
            (lookupGo es.labels serviceNameLabel))
          es.ns (lookupGo es.labels serviceNameLabel) db).db
        cfg.clusterName es.ns (lookupGo es.labels serviceNameLabel)
        ke.1 ke.2.IP := by
    intro ke hke
    rw [hdb1]
    apply goodRow_pruneDb
    · exact goodRow_upsertRows env1.now cfg.clusterName es.ns
        (lookupGo es.labels serviceNameLabel)
        (buildDesiredRows cfg.labelSelector items
          (lookupGo es.labels serviceNameLabel)) db ke.1 ke.2 hke huid hnd
    · exact List.mem_map_of_mem Prod.fst hke
  have h2 := upsertRows_forall2 env2.now cfg.clusterName es.ns
    (lookupGo es.labels serviceNameLabel)
    (buildDesiredRows cfg.labelSelector items
      (lookupGo es.labels serviceNameLabel))
    (syncToDatabase cfg env1
      (buildDesiredRows cfg.labelSelector items
        (lookupGo es.labels serviceNameLabel))
      es.ns (lookupGo es.labels serviceNameLabel) db).db hnd huid hgood
  rw [hdb2]
  have hkeep : ∀ r' ∈ upsertRows env2.now cfg.clusterName es.ns
      (lookupGo es.labels serviceNameLabel)
      (buildDesiredRows cfg.labelSelector items
        (lookupGo es.labels serviceNameLabel))
      (syncToDatabase cfg env1
        (buildDesiredRows cfg.labelSelector items
          (lookupGo es.labels serviceNameLabel))
        es.ns (lookupGo es.labels serviceNameLabel) db).db,
      (!(inPartition r' cfg.clusterName es.ns
          (lookupGo es.labels serviceNameLabel) &&
        decide (r'.pod_uid ∉ (buildDesiredRows cfg.labelSelector items
          (lookupGo es.labels serviceNameLabel)).map Prod.fst))) = true := by
    intro r' hr'
    obtain ⟨r, hrdb1, hR⟩ := forall2_mem_left h2 r' hr'
    obtain ⟨hcl, hns, hsv, hpu, _, _, _, _⟩ := hR
    cases hp : inPartition r' cfg.clusterName es.ns
        (lookupGo es.labels serviceNameLabel)
    · simp
    · obtain ⟨h1, h2', h3⟩ := inPartition_iff.mp hp
      have hpr : inPartition r cfg.clusterName es.ns
          (lookupGo es.labels serviceNameLabel) = true :=
        inPartition_iff.mpr
          ⟨hcl.symm.trans h1, hns.symm.trans h2', hsv.symm.trans h3⟩
      have hru : r.pod_uid ∈ (buildDesiredRows cfg.labelSelector items
          (lookupGo es.labels serviceNameLabel)).map Prod.fst := by
        rw [hdb1] at hrdb1
        exact pruneDb_uid_mem hrdb1 hpr
      have hmem' : r'.pod_uid ∈ (buildDesiredRows cfg.labelSelector items
          (lookupGo es.labels serviceNameLabel)).map Prod.fst := by
        rw [hpu]
        exact hru
      simp [hmem']
  have heq : pruneDb (upsertRows env2.now cfg.clusterName es.ns
      (lookupGo es.labels serviceNameLabel)
      (buildDesiredRows cfg.labelSelector items
        (lookupGo es.labels serviceNameLabel))
      (syncToDatabase cfg env1
        (buildDesiredRows cfg.labelSelector items
          (lookupGo es.labels serviceNameLabel))
        es.ns (lookupGo es.labels serviceNameLabel) db).db)
      cfg.clusterName es.ns (lookupGo es.labels serviceNameLabel)
      ((buildDesiredRows cfg.labelSelector items
        (lookupGo es.labels serviceNameLabel)).map Prod.fst)
      = upsertRows env2.now cfg.clusterName es.ns
        (lookupGo es.labels serviceNameLabel)
        (buildDesiredRows cfg.labelSelector items
          (lookupGo es.labels serviceNameLabel))
        (syncToDatabase cfg env1
          (buildDesiredRows cfg.labelSelector items
            (lookupGo es.labels serviceNameLabel))
          es.ns (lookupGo es.labels serviceNameLabel) db).db := by
    unfold pruneDb
    exact List.filter_eq_self.mpr hkeep
  rw [heq]
  exact h2

theorem convergence_idempotence_witness :
    (esReconcile cfgW envW2 (esReconcile cfgW envW []).db).isErr = false ∧
    List.Forall₂ rowEqButLastSeen
      (esReconcile cfgW envW2 (esReconcile cfgW envW []).db).db
      (esReconcile cfgW envW []).db :=
  convergence_idempotence cfgW envW envW2 [] esW [esW] rfl rfl rfl rfl
    (Or.inl rfl) (by decide) (by decide) rfl rfl rfl

end Observer
